import Mathlib

/-!
# Verification of the printable-map-creator core

Shallow embedding of the two algorithmic components of the repository
(`osm20.py`, with `osm19.py` for the earlier assembler iteration):

* the spiral traversal of `fetch_map` (osm20.py, lines 290-363), which pans a
  map viewer in expanding square rings, capturing a screenshot at each grid
  position not yet in its `seen_positions` set;
* the mosaic assembler `assemble_image_details` (osm20.py, lines 395-482, and
  the earlier iteration at osm19.py, lines 141-238), which parses grid
  positions out of tile filenames and pastes each tile at an affine offset on
  a large canvas.

Machine integers are modelled as `Int`; Python floor division `//` is
`Int.fdiv`.  The Python `set` of seen positions is a duplicate-free `List`
(`List.insert` inserts only when absent, exactly like `set.add`).  Pure
coordinate arithmetic is kept; the browser, filesystem and Pillow calls are
the I/O boundary: a capture is recorded as an event rather than a screenshot,
and a paste is recorded as its target rectangle.
-/

namespace PrintableMap

/-- A grid position `(x, y)`, as accumulated from the `(dx, dy)` pan
directions of `fetch_map`. -/
abbrev Pos := Int × Int

/-- One observable event of `fetch_map` (osm20.py):
`capture p` is the screenshot + crop taken at position `p` (the branch where
`(x, y) not in seen_positions`); `skipCapture p` is the printed skip at an
already-seen position; `pan dx dy pixels` is one `pan_with_mouse` call with
direction `(dx, dy)` and the given pixel distance. -/
inductive NavEvent where
  | capture (p : Pos)
  | skipCapture (p : Pos)
  | pan (dx dy pixels : Int)
deriving DecidableEq

/-- The loop state of `fetch_map`: the current `(x, y)` and the
`seen_positions` set (a duplicate-free list). -/
structure NavState where
  pos : Pos
  seen : List Pos
deriving DecidableEq

/-- The `(dx, dy)` direction table of `fetch_map` (osm20.py line 321), in the
dict's insertion order: up, right, down, left. -/
def directions : List (Int × Int) := [(0, -1), (1, 0), (0, 1), (-1, 0)]

/-- One iteration of the innermost `for sub_step in range(step)` loop of
`fetch_map` (osm20.py lines 340-360): check `seen_positions` and capture or
skip, pan by `movement_pixels` in direction `d`, add the current position to
`seen_positions`, then advance `(x, y)` by `(dx, dy)`. -/
def subStep (movement_pixels : Int) (d : Int × Int) (s : NavState) :
    NavState × List NavEvent :=
  let check := if s.pos ∈ s.seen then NavEvent.skipCapture s.pos
               else NavEvent.capture s.pos
  (⟨(s.pos.1 + d.1, s.pos.2 + d.2), s.seen.insert s.pos⟩,
   [check, NavEvent.pan d.1 d.2 movement_pixels])

/-- `k` consecutive iterations of the innermost loop in one direction `d`
(the `for sub_step in range(step)` loop with `step = k`). -/
def direction_steps (movement_pixels : Int) (d : Int × Int) :
    Nat → NavState → NavState × List NavEvent
  | 0, s => (s, [])
  | k + 1, s =>
      let r1 := subStep movement_pixels d s
      let r2 := direction_steps movement_pixels d k r1.1
      (r2.1, r1.2 ++ r2.2)

/-- The `for dx, dy in directions.values()` loop of `fetch_map`, walking `k`
sub-steps in each listed direction. -/
def runDirs (movement_pixels : Int) (k : Nat) :
    List (Int × Int) → NavState → NavState × List NavEvent
  | [], s => (s, [])
  | d :: ds, s =>
      let r1 := direction_steps movement_pixels d k s
      let r2 := runDirs movement_pixels k ds r1.1
      (r2.1, r1.2 ++ r2.2)

/-- The outer `for step in range(1, steps + 1)` loop of `fetch_map`: rings
`1, 2, …, n` in order, each walking the four directions with `step`
sub-steps. -/
def ringsUpTo (movement_pixels : Int) : Nat → NavState → NavState × List NavEvent
  | 0, s => (s, [])
  | n + 1, s =>
      let r1 := ringsUpTo movement_pixels n s
      let r2 := runDirs movement_pixels (n + 1) directions r1.1
      (r2.1, r1.2 ++ r2.2)

/-- The initial state of `fetch_map`: `x, y = 0, 0` and
`seen_positions = set()`. -/
def initNavState : NavState := ⟨(0, 0), []⟩

/-- The centering loop of `fetch_map` (osm20.py lines 326-334): `steps`
iterations, each panning half the movement distance down then right.  Python's
`movement_pixels // 2` is `Int.fdiv`. -/
def centeringEvents (movement_pixels : Int) (steps : Nat) : List NavEvent :=
  List.flatten (List.replicate steps
    [NavEvent.pan 0 1 (Int.fdiv movement_pixels 2),
     NavEvent.pan 1 0 (Int.fdiv movement_pixels 2)])

/-- The events of the ring traversal of `fetch_map` (centering loop
excluded): the whole `for step in all_steps` loop from `initNavState`. -/
def ringEvents (movement_pixels : Int) (steps : Nat) : List NavEvent :=
  (ringsUpTo movement_pixels steps initNavState).2

/-- All observable events of one `fetch_map` run (osm20.py lines 290-363):
the centering pans followed by the ring traversal. -/
def fetchMapEvents (movement_pixels : Int) (steps : Nat) : List NavEvent :=
  centeringEvents movement_pixels steps ++ ringEvents movement_pixels steps

/-- Decide whether an event is a `pan_with_mouse` call. -/
def NavEvent.isPan : NavEvent → Bool
  | .pan _ _ _ => true
  | _ => false

/-- Number of pan events in an event list. -/
def panCount (es : List NavEvent) : Nat := (es.filter NavEvent.isPan).length

/-- The positions at which a capture (screenshot + crop) was requested, in
order. -/
def captures (es : List NavEvent) : List Pos :=
  es.filterMap fun e => match e with
    | .capture p => some p
    | _ => none

/-- The positions at which the `(x, y) not in seen_positions` membership test
ran (captured or skipped), in order: the cells visited at capture points. -/
def checked (es : List NavEvent) : List Pos :=
  es.filterMap fun e => match e with
    | .capture p => some p
    | .skipCapture p => some p
    | .pan _ _ _ => none

/-- `fetch_map` returns `cropped_image_size`, a local assigned only inside
the capture branch; the run returns normally iff some capture occurred,
otherwise the `return` raises `UnboundLocalError`.  `true` models a normal
return. -/
def fetchMapReturns (movement_pixels : Int) (steps : Nat) : Bool :=
  !(captures (fetchMapEvents movement_pixels steps)).isEmpty

/-- The relation between a start state `s0`, an end state `s1` and the event
trace `es` between them that the traversal loops maintain: the final
`seen_positions` is the initial one extended by exactly the checked positions,
and the captures are exactly the checked positions that were not initially
seen, each captured once. -/
def SoundAt (s0 s1 : NavState) (es : List NavEvent) : Prop :=
  (∀ q : Pos, q ∈ s1.seen ↔ q ∈ checked es ∨ q ∈ s0.seen) ∧
  (∀ q : Pos, q ∈ captures es ↔ q ∈ checked es ∧ q ∉ s0.seen) ∧
  (captures es).Nodup

/-! ## The mosaic assembler, `assemble_image_details`

`osm20.py` lines 395-482, and the earlier iteration `osm19.py` lines 141-238.
The filesystem boundary: the input list of filenames models
`sorted(os.listdir(cropped_dir))`, and `imageSize f` models
`Image.open(f).size`.  A paste is recorded as (position, tile size, offset);
reaching the save line is recorded as an `assembled` result. -/

/-- Python `filename.endswith(".png")`, on the character list of the
filename. -/
def endsWithPng (s : List Char) : Bool :=
  List.isSuffixOf ['.', 'p', 'n', 'g'] s

/-- Python `filename.replace(".png", "")`: remove every (non-overlapping,
left-to-right) occurrence of `.png`. -/
def removePng : List Char → List Char
  | '.' :: 'p' :: 'n' :: 'g' :: rest => removePng rest
  | c :: rest => c :: removePng rest
  | [] => []

/-- Python `s.split("_")`: split at every underscore, keeping empty fields
(so `"".split("_") == [""]`). -/
def splitUnderscore : List Char → List (List Char)
  | [] => [[]]
  | c :: rest =>
      let tail := splitUnderscore rest
      if c = '_' then [] :: tail
      else
        match tail with
        | [] => [[c]]
        | p :: ps => (c :: p) :: ps

/-- Decimal value of an all-digit field; `none` when empty or a non-digit
appears. -/
def digitsVal (ds : List Char) : Option Nat :=
  if ds ≠ [] ∧ ds.all Char.isDigit then
    some (ds.foldl (fun n c => 10 * n + (c.toNat - 48)) 0)
  else none

/-- Python `int(s)` on a filename field: optional surrounding whitespace, an
optional sign, then decimal digits; `none` models the `ValueError` raise.
(Underscore digit separators cannot occur here because the fields come from
`split("_")`.) -/
def pyInt? (s : List Char) : Option Int :=
  let t := ((s.dropWhile Char.isWhitespace).reverse.dropWhile Char.isWhitespace).reverse
  match t with
  | c :: ds =>
      if c = '-' then (digitsVal ds).map (fun n => -(n : Int))
      else if c = '+' then (digitsVal ds).map (fun n => (n : Int))
      else (digitsVal (c :: ds)).map (fun n => (n : Int))
  | [] => none

/-- Outcome of `parts = filename.replace(".png", "").split("_")` followed by
`x, y = int(parts[xIdx]), int(parts[yIdx])` (osm20.py lines 431-432 with
indices 1, 2; osm19.py lines 177-178 with indices 2, 3): a parsed position, a
`ValueError` from `int`, or an `IndexError` from a missing part.  Python
evaluates `int(parts[xIdx])` before touching `parts[yIdx]`. -/
inductive TileParse where
  | ok (pos : Pos)
  | valueError
  | indexError
deriving DecidableEq

/-- Parse one filename into a grid position, mirroring the `try` body. -/
def parsePosition (xIdx yIdx : Nat) (filename : String) : TileParse :=
  let parts := splitUnderscore (removePng filename.data)
  match parts.get? xIdx with
  | none => TileParse.indexError
  | some sx =>
      match pyInt? sx with
      | none => TileParse.valueError
      | some x =>
          match parts.get? yIdx with
          | none => TileParse.indexError
          | some sy =>
              match pyInt? sy with
              | none => TileParse.valueError
              | some y => TileParse.ok (x, y)

/-- The collection loop over `cropped_files` (osm20.py lines 427-438,
osm19.py lines 173-186): non-`.png` names are ignored, a `ValueError` is
caught (`except ValueError: … continue`, the tile is skipped with a printed
warning), while an `IndexError` is NOT caught and aborts the whole run
(`Except.error`). -/
def collectPositions (xIdx yIdx : Nat) : List String → Except Unit (List (String × Pos))
  | [] => Except.ok []
  | f :: fs =>
      if endsWithPng f.data then
        match parsePosition xIdx yIdx f with
        | TileParse.ok p =>
            match collectPositions xIdx yIdx fs with
            | Except.ok rest => Except.ok ((f, p) :: rest)
            | Except.error e => Except.error e
        | TileParse.valueError => collectPositions xIdx yIdx fs
        | TileParse.indexError => Except.error ()
      else collectPositions xIdx yIdx fs

/-- What one assembler run computed before saving: the allocated canvas and
every `assembled_image.paste(image, (x_offset, y_offset))` call, recorded as
(grid position, `image.size`, offset). -/
structure AssembledOutput where
  canvasWidth : Int
  canvasHeight : Int
  pastes : List (Pos × (Int × Int) × (Int × Int))
deriving DecidableEq

/-- Result of `assemble_image_details`: an uncaught `IndexError`
(`crashed`), the early `return` of the empty-input branch (osm20.py lines
440-442, printing "No valid images found for assembly. Exiting." with no
canvas allocated and no file written), or a saved mosaic. -/
inductive AssembleResult where
  | crashed
  | nothingToAssemble
  | assembled (out : AssembledOutput)
deriving DecidableEq

/-- Whether the run reached `assembled_image.save(output_filename)`. -/
def AssembleResult.writesOutput : AssembleResult → Bool
  | AssembleResult.assembled _ => true
  | _ => false

/-- `assemble_image_details` of osm20.py (lines 395-482).  Canvas:
`width + movement_pixels*steps*2 + 6000` per axis; centers by `// 2`; each
tile at `(x, y)` of size `(w, h)` is pasted at
`(center_x - x*movement_pixels - w // 2, center_y - y*movement_pixels - h // 2)`. -/
def assemble_image_details (cropped_files : List String) (movement_pixels : Int)
    (cropped_image_size : Int × Int) (steps : Int) (imageSize : String → Int × Int) :
    AssembleResult :=
  match collectPositions 1 2 cropped_files with
  | Except.error _ => AssembleResult.crashed
  | Except.ok tiles =>
      if tiles.isEmpty then AssembleResult.nothingToAssemble
      else
        let assembled_image_size_x := cropped_image_size.1 + movement_pixels * steps * 2 + 6000
        let assembled_image_size_y := cropped_image_size.2 + movement_pixels * steps * 2 + 6000
        let center_x := Int.fdiv assembled_image_size_x 2
        let center_y := Int.fdiv assembled_image_size_y 2
        let pastes := tiles.map fun t =>
          let wh := imageSize t.1
          let x_offset := center_x - t.2.1 * movement_pixels - Int.fdiv wh.1 2
          let y_offset := center_y - t.2.2 * movement_pixels - Int.fdiv wh.2 2
          (t.2, wh, (x_offset, y_offset))
        AssembleResult.assembled ⟨assembled_image_size_x, assembled_image_size_y, pastes⟩

/-- `assemble_image_details` of the earlier iteration osm19.py (lines
141-238).  Differences from osm20: filename fields 2 and 3 (its filenames are
`screenshot_#i_x_y.png`), no `+ 6000` margin in the canvas size, and the
half-extent terms of the offsets are swapped
(`x_offset = center_x - x*movement_pixels - height // 2`,
`y_offset = center_y - y*movement_pixels - width // 2`). -/
def assemble_image_details_osm19 (cropped_files : List String) (movement_pixels : Int)
    (cropped_image_size : Int × Int) (steps : Int) (imageSize : String → Int × Int) :
    AssembleResult :=
  match collectPositions 2 3 cropped_files with
  | Except.error _ => AssembleResult.crashed
  | Except.ok tiles =>
      if tiles.isEmpty then AssembleResult.nothingToAssemble
      else
        let assembled_image_size_x := cropped_image_size.1 + movement_pixels * steps * 2
        let assembled_image_size_y := cropped_image_size.2 + movement_pixels * steps * 2
        let center_x := Int.fdiv assembled_image_size_x 2
        let center_y := Int.fdiv assembled_image_size_y 2
        let pastes := tiles.map fun t =>
          let wh := imageSize t.1
          let x_offset := center_x - t.2.1 * movement_pixels - Int.fdiv wh.2 2
          let y_offset := center_y - t.2.2 * movement_pixels - Int.fdiv wh.1 2
          (t.2, wh, (x_offset, y_offset))
        AssembleResult.assembled ⟨assembled_image_size_x, assembled_image_size_y, pastes⟩

/-! ## Helper lemmas about the traversal -/

theorem checked_nil : checked [] = [] := rfl

theorem captures_nil : captures [] = [] := rfl

theorem checked_append (a b : List NavEvent) :
    checked (a ++ b) = checked a ++ checked b := by
  simp [checked]

theorem captures_append (a b : List NavEvent) :
    captures (a ++ b) = captures a ++ captures b := by
  simp [captures]

theorem panCount_append (a b : List NavEvent) :
    panCount (a ++ b) = panCount a + panCount b := by
  simp [panCount]

theorem subStep_fst (mp : Int) (d : Int × Int) (s : NavState) :
    (subStep mp d s).1 = ⟨(s.pos.1 + d.1, s.pos.2 + d.2), s.seen.insert s.pos⟩ := rfl

theorem checked_subStep (mp : Int) (d : Int × Int) (s : NavState) :
    checked (subStep mp d s).2 = [s.pos] := by
  by_cases h : s.pos ∈ s.seen <;> simp [subStep, checked, h]

theorem captures_subStep (mp : Int) (d : Int × Int) (s : NavState) :
    captures (subStep mp d s).2 = if s.pos ∈ s.seen then [] else [s.pos] := by
  by_cases h : s.pos ∈ s.seen <;> simp [subStep, captures, h]

theorem panCount_subStep (mp : Int) (d : Int × Int) (s : NavState) :
    panCount (subStep mp d s).2 = 1 := by
  by_cases h : s.pos ∈ s.seen <;> simp [subStep, panCount, NavEvent.isPan, h]

theorem soundAt_nil (s : NavState) : SoundAt s s [] := by
  refine ⟨fun q => ?_, fun q => ?_, ?_⟩ <;> simp [checked, captures]

theorem soundAt_subStep (mp : Int) (d : Int × Int) (s : NavState) :
    SoundAt s (subStep mp d s).1 (subStep mp d s).2 := by
  refine ⟨fun q => ?_, fun q => ?_, ?_⟩
  · rw [subStep_fst, checked_subStep]
    simp [List.mem_insert_iff, or_comm]
  · rw [captures_subStep, checked_subStep]
    by_cases h : s.pos ∈ s.seen
    · simp only [if_pos h, List.not_mem_nil, List.mem_singleton, false_iff]
      rintro ⟨rfl, hq⟩
      exact hq h
    · simp only [if_neg h, List.mem_singleton, iff_self_and]
      rintro rfl
      exact h
  · rw [captures_subStep]
    split <;> simp

theorem soundAt_comp {s0 s1 s2 : NavState} {e1 e2 : List NavEvent}
    (h1 : SoundAt s0 s1 e1) (h2 : SoundAt s1 s2 e2) :
    SoundAt s0 s2 (e1 ++ e2) := by
  obtain ⟨h1s, h1c, h1n⟩ := h1
  obtain ⟨h2s, h2c, h2n⟩ := h2
  refine ⟨fun q => ?_, fun q => ?_, ?_⟩
  · rw [h2s q, checked_append]
    simp only [List.mem_append]
    rw [h1s q]
    tauto
  · rw [captures_append, checked_append]
    simp only [List.mem_append]
    rw [h1c q, h2c q, h1s q]
    tauto
  · rw [captures_append, List.nodup_append]
    refine ⟨h1n, h2n, fun q hq1 hq2 => ?_⟩
    have ha := (h1c q).1 hq1
    have hb := (h2c q).1 hq2
    rw [h1s q] at hb
    exact hb.2 (Or.inl ha.1)

theorem soundAt_direction_steps (mp : Int) (d : Int × Int) :
    ∀ (k : Nat) (s : NavState),
      SoundAt s (direction_steps mp d k s).1 (direction_steps mp d k s).2
  | 0, s => soundAt_nil s
  | k + 1, s =>
      soundAt_comp (soundAt_subStep mp d s)
        (soundAt_direction_steps mp d k (subStep mp d s).1)

theorem soundAt_runDirs (mp : Int) (k : Nat) :
    ∀ (ds : List (Int × Int)) (s : NavState),
      SoundAt s (runDirs mp k ds s).1 (runDirs mp k ds s).2
  | [], s => soundAt_nil s
  | d :: ds, s =>
      soundAt_comp (soundAt_direction_steps mp d k s)
        (soundAt_runDirs mp k ds (direction_steps mp d k s).1)

theorem soundAt_ringsUpTo (mp : Int) :
    ∀ (n : Nat) (s : NavState),
      SoundAt s (ringsUpTo mp n s).1 (ringsUpTo mp n s).2
  | 0, s => soundAt_nil s
  | n + 1, s =>
      soundAt_comp (soundAt_ringsUpTo mp n s)
        (soundAt_runDirs mp (n + 1) directions (ringsUpTo mp n s).1)

theorem panCount_direction_steps (mp : Int) (d : Int × Int) :
    ∀ (k : Nat) (s : NavState), panCount (direction_steps mp d k s).2 = k
  | 0, _ => rfl
  | k + 1, s => by
      simp only [direction_steps, panCount_append, panCount_subStep,
        panCount_direction_steps mp d k]
      omega

theorem panCount_runDirs (mp : Int) (k : Nat) :
    ∀ (ds : List (Int × Int)) (s : NavState),
      panCount (runDirs mp k ds s).2 = ds.length * k
  | [], _ => by simp [runDirs, panCount]
  | d :: ds, s => by
      simp only [runDirs, panCount_append, panCount_direction_steps,
        panCount_runDirs mp k ds, List.length_cons]
      ring

theorem panCount_ringsUpTo (mp : Int) :
    ∀ (n : Nat) (s : NavState), panCount (ringsUpTo mp n s).2 = 2 * n * (n + 1)
  | 0, _ => rfl
  | n + 1, s => by
      simp only [ringsUpTo, panCount_append, panCount_runDirs,
        panCount_ringsUpTo mp n, directions, List.length_cons, List.length_nil]
      ring

theorem panCount_centeringEvents (mp : Int) :
    ∀ n : Nat, panCount (centeringEvents mp n) = 2 * n
  | 0 => rfl
  | n + 1 => by
      have ih := panCount_centeringEvents mp n
      simp only [centeringEvents, List.replicate_succ, List.flatten_cons,
        panCount_append] at ih ⊢
      rw [ih]
      have h2 : panCount [NavEvent.pan 0 1 (Int.fdiv mp 2),
          NavEvent.pan 1 0 (Int.fdiv mp 2)] = 2 := rfl
      omega

theorem captures_centeringEvents (mp : Int) :
    ∀ n : Nat, captures (centeringEvents mp n) = []
  | 0 => rfl
  | n + 1 => by
      have ih := captures_centeringEvents mp n
      simp only [centeringEvents, List.replicate_succ, List.flatten_cons,
        captures_append] at ih ⊢
      rw [ih]
      rfl

theorem checked_centeringEvents (mp : Int) :
    ∀ n : Nat, checked (centeringEvents mp n) = []
  | 0 => rfl
  | n + 1 => by
      have ih := checked_centeringEvents mp n
      simp only [centeringEvents, List.replicate_succ, List.flatten_cons,
        checked_append] at ih ⊢
      rw [ih]
      rfl

theorem captures_fetchMapEvents (mp : Int) (n : Nat) :
    captures (fetchMapEvents mp n) = captures (ringEvents mp n) := by
  rw [fetchMapEvents, captures_append, captures_centeringEvents]
  rfl

theorem checked_fetchMapEvents (mp : Int) (n : Nat) :
    checked (fetchMapEvents mp n) = checked (ringEvents mp n) := by
  rw [fetchMapEvents, checked_append, checked_centeringEvents]
  rfl

theorem panCount_fetchMapEvents (mp : Int) (n : Nat) :
    panCount (fetchMapEvents mp n) = 2 * n + 2 * n * (n + 1) := by
  rw [fetchMapEvents, panCount_append, panCount_centeringEvents, ringEvents,
    panCount_ringsUpTo]

theorem checked_direction_steps (mp : Int) (d : Int × Int) :
    ∀ (k : Nat) (s : NavState),
      checked (direction_steps mp d k s).2 =
        (List.range k).map
          (fun i : Nat => (s.pos.1 + (i : Int) * d.1, s.pos.2 + (i : Int) * d.2))
  | 0, s => by simp [direction_steps, checked]
  | k + 1, s => by
      have ih := checked_direction_steps mp d k (subStep mp d s).1
      simp only [direction_steps, checked_append]
      rw [checked_subStep, ih]
      simp only [subStep_fst]
      rw [List.range_succ_eq_map]
      simp only [List.map_cons, List.map_map, List.singleton_append]
      rw [List.cons_eq_cons]
      constructor
      · simp [Prod.ext_iff]
      · rw [List.map_inj_left]
        intro i _
        simp only [Function.comp_apply, Prod.mk.injEq, Nat.succ_eq_add_one]
        push_cast
        constructor <;> ring

theorem pos_direction_steps (mp : Int) (d : Int × Int) :
    ∀ (k : Nat) (s : NavState),
      (direction_steps mp d k s).1.pos = (s.pos.1 + k * d.1, s.pos.2 + k * d.2)
  | 0, s => by simp [direction_steps]
  | k + 1, s => by
      have ih := pos_direction_steps mp d k (subStep mp d s).1
      simp only [direction_steps]
      rw [ih]
      simp only [subStep_fst, Prod.mk.injEq]
      push_cast
      constructor <;> ring

theorem pos_runDirs_directions (mp : Int) (k : Nat) (s : NavState) :
    (runDirs mp k directions s).1.pos = s.pos := by
  simp only [directions, runDirs]
  rw [pos_direction_steps, pos_direction_steps, pos_direction_steps,
    pos_direction_steps]
  rw [Prod.ext_iff]
  constructor <;> · dsimp only; ring

theorem pos_ringsUpTo (mp : Int) :
    ∀ (n : Nat) (s : NavState), (ringsUpTo mp n s).1.pos = s.pos
  | 0, _ => rfl
  | n + 1, s => by
      simp only [ringsUpTo]
      rw [pos_runDirs_directions, pos_ringsUpTo mp n]

/-- The positions checked by ring `k`, started at the origin: `k` steps up
the `x = 0` column, `k` steps right along the `y = -k` row, `k` steps down
the `x = k` column, and `k` steps left along the `y = 0` row. -/
theorem mem_checked_ring_iff (mp : Int) (k : Nat) (s : NavState)
    (h : s.pos = (0, 0)) (qx qy : Int) :
    (qx, qy) ∈ checked (runDirs mp k directions s).2 ↔
      ((∃ i : Nat, i < k ∧ qx = 0 ∧ qy = -(i : Int)) ∨
       (∃ i : Nat, i < k ∧ qx = (i : Int) ∧ qy = -(k : Int)) ∨
       (∃ i : Nat, i < k ∧ qx = (k : Int) ∧ qy = -(k : Int) + (i : Int)) ∨
       (∃ i : Nat, i < k ∧ qx = (k : Int) - (i : Int) ∧ qy = 0)) := by
  simp only [directions, runDirs, checked_append, checked_nil, List.append_nil,
    List.mem_append, checked_direction_steps, pos_direction_steps, h,
    List.mem_map, List.mem_range, Prod.mk.injEq]
  constructor
  · rintro (⟨i, hi, hx, hy⟩ | ⟨i, hi, hx, hy⟩ | ⟨i, hi, hx, hy⟩ | ⟨i, hi, hx, hy⟩)
    · exact Or.inl ⟨i, hi, by omega, by omega⟩
    · exact Or.inr (Or.inl ⟨i, hi, by omega, by omega⟩)
    · exact Or.inr (Or.inr (Or.inl ⟨i, hi, by omega, by omega⟩))
    · exact Or.inr (Or.inr (Or.inr ⟨i, hi, by omega, by omega⟩))
  · rintro (⟨i, hi, hx, hy⟩ | ⟨i, hi, hx, hy⟩ | ⟨i, hi, hx, hy⟩ | ⟨i, hi, hx, hy⟩)
    · exact Or.inl ⟨i, hi, by omega, by omega⟩
    · exact Or.inr (Or.inl ⟨i, hi, by omega, by omega⟩)
    · exact Or.inr (Or.inr (Or.inl ⟨i, hi, by omega, by omega⟩))
    · exact Or.inr (Or.inr (Or.inr ⟨i, hi, by omega, by omega⟩))

/-- After the rings `1, …, n` from the initial state, the set of checked
positions is exactly the square `[0, n] × [-n, 0]` (empty when `n = 0`). -/
theorem mem_checked_ringsUpTo (mp : Int) :
    ∀ (n : Nat) (q : Pos),
      q ∈ checked (ringsUpTo mp n initNavState).2 ↔
        1 ≤ n ∧ 0 ≤ q.1 ∧ q.1 ≤ (n : Int) ∧ -(n : Int) ≤ q.2 ∧ q.2 ≤ 0
  | 0, q => by
      simp [ringsUpTo, checked]
  | n + 1, q => by
      obtain ⟨qx, qy⟩ := q
      have hpos : ((ringsUpTo mp n initNavState).1).pos = (0, 0) :=
        pos_ringsUpTo mp n initNavState
      have ih := mem_checked_ringsUpTo mp n (qx, qy)
      simp only [ringsUpTo, checked_append, List.mem_append]
      rw [mem_checked_ring_iff mp (n + 1) _ hpos, ih]
      dsimp only
      constructor
      · rintro (⟨hn, h0, h1, h2, h3⟩ | ⟨i, hi, hx, hy⟩ | ⟨i, hi, hx, hy⟩ |
          ⟨i, hi, hx, hy⟩ | ⟨i, hi, hx, hy⟩) <;>
          refine ⟨by omega, by omega, by omega, by omega, by omega⟩
      · rintro ⟨-, h0, h1, h2, h3⟩
        by_cases hx : qx ≤ (n : Int)
        · by_cases hy : -(n : Int) ≤ qy
          · by_cases hn : 1 ≤ n
            · exact Or.inl ⟨hn, h0, hx, hy, h3⟩
            · exact Or.inr (Or.inl ⟨0, by omega, by omega, by omega⟩)
          · exact Or.inr (Or.inr (Or.inl ⟨qx.toNat, by omega, by omega, by omega⟩))
        · by_cases hy0 : qy = 0
          · exact Or.inr (Or.inr (Or.inr (Or.inr ⟨0, by omega, by omega, by omega⟩)))
          · exact Or.inr (Or.inr (Or.inr (Or.inl
              ⟨(qy + ((n : Int) + 1)).toNat, by omega, by omega, by omega⟩)))

theorem mem_captures_ringEvents (mp : Int) (n : Nat) (q : Pos) :
    q ∈ captures (ringEvents mp n) ↔ q ∈ checked (ringEvents mp n) := by
  have h := (soundAt_ringsUpTo mp n initNavState).2.1 q
  rw [ringEvents, h]
  simp [initNavState]

theorem nodup_captures_ringEvents (mp : Int) (n : Nat) :
    (captures (ringEvents mp n)).Nodup :=
  (soundAt_ringsUpTo mp n initNavState).2.2

/-- The captured positions of a whole `fetch_map` run form exactly the square
`[0, n] × [-n, 0]` of the integer lattice. -/
theorem mem_captures_fetchMapEvents (mp : Int) (n : Nat) (q : Pos) :
    q ∈ captures (fetchMapEvents mp n) ↔
      1 ≤ n ∧ 0 ≤ q.1 ∧ q.1 ≤ (n : Int) ∧ -(n : Int) ≤ q.2 ∧ q.2 ≤ 0 := by
  rw [captures_fetchMapEvents, mem_captures_ringEvents, ringEvents,
    mem_checked_ringsUpTo]

theorem nodup_captures_fetchMapEvents (mp : Int) (n : Nat) :
    (captures (fetchMapEvents mp n)).Nodup := by
  rw [captures_fetchMapEvents]
  exact nodup_captures_ringEvents mp n

theorem card_captures_fetchMapEvents (mp : Int) (n : Nat) (h : 1 ≤ n) :
    (captures (fetchMapEvents mp n)).toFinset.card = (n + 1) ^ 2 := by
  have hset : (captures (fetchMapEvents mp n)).toFinset
      = Finset.Icc (0 : Int) (n : Int) ×ˢ Finset.Icc (-(n : Int)) (0 : Int) := by
    ext q
    rw [List.mem_toFinset, mem_captures_fetchMapEvents]
    simp only [Finset.mem_product, Finset.mem_Icc]
    constructor
    · rintro ⟨-, h0, h1, h2, h3⟩
      exact ⟨⟨h0, h1⟩, h2, h3⟩
    · rintro ⟨⟨h0, h1⟩, h2, h3⟩
      exact ⟨h, h0, h1, h2, h3⟩
  rw [hset, Finset.card_product, Int.card_Icc, Int.card_Icc]
  have h1 : ((n : Int) + 1 - 0).toNat = n + 1 := by omega
  have h2 : ((0 : Int) + 1 - -(n : Int)).toNat = n + 1 := by omega
  rw [h1, h2]
  ring

/-- The full capture list of a run with one ring, for any movement distance:
the origin, then its upper, upper-right and right neighbours. -/
theorem captures_fetchMapEvents_one (mp : Int) :
    captures (fetchMapEvents mp 1) = [(0, 0), (0, -1), (1, -1), (1, 0)] := by
  rw [captures_fetchMapEvents]
  simp [ringEvents, ringsUpTo, runDirs, directions, direction_steps, subStep,
    initNavState, captures, List.insert]

/-- The pan sequence of the single ring of a one-ring run: one full-distance
pan in each of the four directions, in dict order. -/
theorem panEvents_ringEvents_one (mp : Int) :
    (ringEvents mp 1).filter NavEvent.isPan =
      [NavEvent.pan 0 (-1) mp, NavEvent.pan 1 0 mp,
       NavEvent.pan 0 1 mp, NavEvent.pan (-1) 0 mp] := by
  simp [ringEvents, ringsUpTo, runDirs, directions, direction_steps, subStep,
    initNavState, NavEvent.isPan, List.insert]

/-! ## Helper lemmas about the assembler -/

/-- Inversion of a successful osm20 run: the valid tiles were collected
without crash, were nonempty, and the output records the canvas dimensions
and the offset of every paste. -/
theorem assembled_inv {files : List String} {mp : Int} {sz : Int × Int}
    {steps : Int} {imageSize : String → Int × Int} {out : AssembledOutput}
    (h : assemble_image_details files mp sz steps imageSize =
      AssembleResult.assembled out) :
    ∃ tiles, collectPositions 1 2 files = Except.ok tiles ∧
      tiles.isEmpty = false ∧
      out = ⟨sz.1 + mp * steps * 2 + 6000, sz.2 + mp * steps * 2 + 6000,
        tiles.map fun t =>
          (t.2, imageSize t.1,
           (Int.fdiv (sz.1 + mp * steps * 2 + 6000) 2 - t.2.1 * mp -
              Int.fdiv (imageSize t.1).1 2,
            Int.fdiv (sz.2 + mp * steps * 2 + 6000) 2 - t.2.2 * mp -
              Int.fdiv (imageSize t.1).2 2))⟩ := by
  unfold assemble_image_details at h
  cases hc : collectPositions 1 2 files with
  | error e => rw [hc] at h; simp at h
  | ok tiles =>
      rw [hc] at h
      cases he : tiles.isEmpty with
      | true => simp [he] at h
      | false =>
          simp only [he, Bool.false_eq_true, if_false] at h
          refine ⟨tiles, rfl, he, ?_⟩
          cases h
          rfl

/-- Pure bound: the osm20 offset formula keeps a `w`-wide tile inside the
`w + mp*N*2 + 6000`-wide canvas for every grid coordinate `x` with
`|x| ≤ N`. -/
theorem offset_in_bounds (mp N w x : Int) (hmp : 0 < mp) (hN : 1 ≤ N)
    (hw : 0 ≤ w) (hx1 : -N ≤ x) (hx2 : x ≤ N) :
    0 ≤ Int.fdiv (w + mp * N * 2 + 6000) 2 - x * mp - Int.fdiv w 2 ∧
    Int.fdiv (w + mp * N * 2 + 6000) 2 - x * mp - Int.fdiv w 2 + w ≤
      w + mp * N * 2 + 6000 := by
  rw [Int.fdiv_eq_ediv _ (by norm_num), Int.fdiv_eq_ediv _ (by norm_num)]
  have k1 : x * mp ≤ mp * N := by
    calc x * mp ≤ N * mp := mul_le_mul_of_nonneg_right hx2 hmp.le
    _ = mp * N := mul_comm _ _
  have k2 : -(mp * N) ≤ x * mp := by
    have : (-N) * mp ≤ x * mp := mul_le_mul_of_nonneg_right hx1 hmp.le
    calc -(mp * N) = (-N) * mp := by ring
    _ ≤ x * mp := this
  have k3 : 0 < mp * N := mul_pos hmp (lt_of_lt_of_le zero_lt_one hN)
  generalize hg1 : x * mp = t at k1 k2 ⊢
  generalize hg2 : mp * N = u at k1 k2 k3 ⊢
  omega

theorem four_mul_div_two (N : Nat) : 4 * N * (N + 1) / 2 = 2 * N * (N + 1) := by
  rw [show 4 * N * (N + 1) = 2 * N * (N + 1) * 2 by ring, Nat.mul_div_cancel]
  norm_num

theorem panCount_closed_form (mp : Int) (N : Nat) :
    panCount (fetchMapEvents mp N) = 4 * N * (N + 1) / 2 + 2 * N := by
  rw [panCount_fetchMapEvents, four_mul_div_two]
  ring

theorem checked_length_direction_steps (mp : Int) (d : Int × Int) (k : Nat)
    (s : NavState) : (checked (direction_steps mp d k s).2).length = k := by
  rw [checked_direction_steps]
  simp

theorem checked_length_runDirs (mp : Int) (k : Nat) :
    ∀ (ds : List (Int × Int)) (s : NavState),
      (checked (runDirs mp k ds s).2).length = ds.length * k
  | [], s => by simp [runDirs, checked]
  | d :: ds, s => by
      simp only [runDirs, checked_append, List.length_append,
        checked_length_direction_steps, checked_length_runDirs mp k ds,
        List.length_cons]
      ring

theorem checked_length_ringsUpTo (mp : Int) :
    ∀ (n : Nat) (s : NavState),
      (checked (ringsUpTo mp n s).2).length = 2 * n * (n + 1)
  | 0, _ => rfl
  | n + 1, s => by
      simp only [ringsUpTo, checked_append, List.length_append,
        checked_length_runDirs, checked_length_ringsUpTo mp n, directions,
        List.length_cons, List.length_nil]
      ring

/-! ## Claim theorems -/

/-- C2, counterexample.  The claim says one complete traversal emits exactly
`4·N·(N+1)/2` pan events; at `N = 1` the run emits 6 pan events (4 ring pans
plus 2 centering pans), not `4·1·2/2 = 4`. -/
theorem traversal_pan_count_cex :
    ¬ panCount (fetchMapEvents 800 1) = 4 * 1 * (1 + 1) / 2 := by decide

/-- C2, amended.  The ring traversal of `fetch_map` emits exactly
`4·N·(N+1)/2` pan events; the complete traversal also emits the `2·N`
half-distance centering pans first, for `4·N·(N+1)/2 + 2·N` in total — a
finite sequence bounded by that number. -/
theorem traversal_pan_count (mp : Int) (N : Nat) :
    panCount (ringEvents mp N) = 4 * N * (N + 1) / 2 ∧
    panCount (fetchMapEvents mp N) = 4 * N * (N + 1) / 2 + 2 * N := by
  refine ⟨?_, panCount_closed_form mp N⟩
  rw [four_mul_div_two, ringEvents]
  exact panCount_ringsUpTo mp N initNavState

/-- C3.  The traversal captures at most once per grid position: the capture
list has no duplicates, a position is captured exactly when it is checked at
all (each distinct visited cell yields exactly one capture), and every
checked cell is accompanied by exactly one ring pan (skipped cells still
pan). -/
theorem traversal_dedup (mp : Int) (N : Nat) :
    (captures (fetchMapEvents mp N)).Nodup ∧
    (∀ q : Pos, q ∈ captures (fetchMapEvents mp N) ↔
      q ∈ checked (fetchMapEvents mp N)) ∧
    (checked (fetchMapEvents mp N)).length = panCount (ringEvents mp N) := by
  refine ⟨nodup_captures_fetchMapEvents mp N, fun q => ?_, ?_⟩
  · rw [captures_fetchMapEvents, checked_fetchMapEvents]
    exact mem_captures_ringEvents mp N q
  · rw [checked_fetchMapEvents]
    unfold ringEvents
    rw [checked_length_ringsUpTo, panCount_ringsUpTo]

/-- C4, counterexample.  The claim says the `N = 1` captured set is exactly
the four unit-distance neighbours of the origin; in fact the origin itself is
captured and the neighbour `(0, 1)` never is. -/
theorem one_ring_captures_cex :
    (0, 0) ∈ captures (fetchMapEvents 800 1) ∧
    ((0, 1) : Pos) ∉ captures (fetchMapEvents 800 1) := by decide

/-- C4, amended.  For `N = 1`, after the centering adjustment the ring pans
once in each of the four directions in dict order (up, right, down, left),
and captures exactly `(0,0), (0,-1), (1,-1), (1,0)` — the origin and the
corner cells swept on the way around it — with zero repeated captures. -/
theorem one_ring_captures (mp : Int) :
    captures (fetchMapEvents mp 1) = [(0, 0), (0, -1), (1, -1), (1, 0)] ∧
    (captures (fetchMapEvents mp 1)).Nodup ∧
    (ringEvents mp 1).filter NavEvent.isPan =
      [NavEvent.pan 0 (-1) mp, NavEvent.pan 1 0 mp,
       NavEvent.pan 0 1 mp, NavEvent.pan (-1) 0 mp] := by
  refine ⟨captures_fetchMapEvents_one mp, ?_, panEvents_ringEvents_one mp⟩
  rw [captures_fetchMapEvents_one]
  decide

/-- C8.  With ring count `0` the traversal emits no events at all — no pans
and no captures — but `fetch_map` then returns its `cropped_image_size`
local, which no iteration ever assigned: the return raises
`UnboundLocalError` (`fetchMapReturns … = false`) instead of returning
normally. -/
theorem zero_steps_empty (mp : Int) :
    fetchMapEvents mp 0 = [] ∧ fetchMapReturns mp 0 = false := ⟨rfl, rfl⟩

/-- C9, counterexample.  The claim says a non-positive pan distance is
rejected before any pan is emitted; with pan distance `-800` the traversal
emits its 6 pan events anyway. -/
theorem no_config_validation_cex :
    fetchMapEvents (-800) 1 ≠ [] ∧ panCount (fetchMapEvents (-800) 1) = 6 := by
  decide

/-- C9, amended.  `fetch_map` performs no configuration validation: with pan
distance `≤ 0` (and any ring count `≥ 1`) the traversal is not rejected — it
runs to completion and emits its full pan-event sequence. -/
theorem no_config_validation (mp : Int) (N : Nat) (hmp : mp ≤ 0) (hN : 1 ≤ N) :
    panCount (fetchMapEvents mp N) = 4 * N * (N + 1) / 2 + 2 * N ∧
    fetchMapEvents mp N ≠ [] := by
  refine ⟨panCount_closed_form mp N, fun heq => ?_⟩
  have h0 : panCount (fetchMapEvents mp N) = 0 := by rw [heq]; rfl
  rw [panCount_closed_form mp N] at h0
  have h2 : 2 * N = 0 := Nat.eq_zero_of_add_eq_zero_left h0
  omega

/-- C9, witness for the amended theorem at pan distance `-800`, one ring. -/
theorem no_config_validation_witness :
    (-800 : Int) ≤ 0 ∧ 1 ≤ 1 ∧
    (panCount (fetchMapEvents (-800) 1) = 4 * 1 * (1 + 1) / 2 + 2 * 1 ∧
     fetchMapEvents (-800) 1 ≠ []) :=
  ⟨by decide, by decide, no_config_validation (-800) 1 (by decide) (by decide)⟩

/-- C10.  For every ring count `N ≥ 1` the captured positions are exactly
the square `{(x, y) : 0 ≤ x ≤ N, -N ≤ y ≤ 0}` — anchored at the origin's
corner, not centered on it — of size `(N+1)²`, and the current position is
back at `(0, 0)` at the end of every completed ring. -/
theorem capture_region_square (mp : Int) (N : Nat) (h : 1 ≤ N) :
    (∀ q : Pos, q ∈ captures (fetchMapEvents mp N) ↔
       0 ≤ q.1 ∧ q.1 ≤ (N : Int) ∧ -(N : Int) ≤ q.2 ∧ q.2 ≤ 0) ∧
    (captures (fetchMapEvents mp N)).toFinset.card = (N + 1) ^ 2 ∧
    (∀ k : Nat, k ≤ N → (ringsUpTo mp k initNavState).1.pos = (0, 0)) := by
  refine ⟨fun q => ?_, card_captures_fetchMapEvents mp N h,
    fun k _ => pos_ringsUpTo mp k initNavState⟩
  rw [mem_captures_fetchMapEvents]
  exact ⟨fun h' => h'.2, fun h' => ⟨h, h'⟩⟩

/-- C10, witness at pan distance 800 with one ring. -/
theorem capture_region_square_witness :
    1 ≤ 1 ∧
    ((∀ q : Pos, q ∈ captures (fetchMapEvents 800 1) ↔
        0 ≤ q.1 ∧ q.1 ≤ (1 : Int) ∧ -(1 : Int) ≤ q.2 ∧ q.2 ≤ 0) ∧
     (captures (fetchMapEvents 800 1)).toFinset.card = (1 + 1) ^ 2 ∧
     (∀ k : Nat, k ≤ 1 → (ringsUpTo 800 k initNavState).1.pos = (0, 0))) :=
  ⟨by decide, capture_region_square 800 1 (by decide)⟩

/-- C1, counterexample.  The claim's offset formula
`(centerX - x·p - w/2, centerY - y·p - h/2)` does not hold of every assembly
run: the osm19 iteration pastes the 400×300 tile at grid `(1, 0)` with pan
distance 800 at offset `(50, 750)`, while the claimed formula gives
`(0, 800)` (osm19 swaps the width/height half-extents). -/
theorem assembler_offset_cex :
    assemble_image_details_osm19 ["screenshot_#0_1_0.png"] 800 (400, 300) 1
        (fun _ => (400, 300)) =
      AssembleResult.assembled ⟨2000, 1900, [((1, 0), (400, 300), (50, 750))]⟩ ∧
    ((50 : Int), (750 : Int)) ≠
      (Int.fdiv 2000 2 - 1 * 800 - Int.fdiv 400 2,
       Int.fdiv 1900 2 - 0 * 800 - Int.fdiv 300 2) := by
  constructor <;> decide

/-- C1, amended.  In osm20's assembler every paste offset is
`(centerX - x·p - w/2, centerY - y·p - h/2)` with floor division, and for
uniform 400×300 tiles at pan distance 800 the tile at `(0,0)` has its center
at the canvas center while the tile at `(1,0)` sits exactly 800 px to its
left at the same y; the osm19 iteration instead swaps the `w/2`/`h/2`
terms. -/
theorem assembler_offset_formula {files : List String} {mp : Int}
    {sz : Int × Int} {steps : Int} {imageSize : String → Int × Int}
    {out : AssembledOutput}
    (h : assemble_image_details files mp sz steps imageSize =
      AssembleResult.assembled out) :
    (∀ e ∈ out.pastes,
       e.2.2.1 = Int.fdiv out.canvasWidth 2 - e.1.1 * mp - Int.fdiv e.2.1.1 2 ∧
       e.2.2.2 = Int.fdiv out.canvasHeight 2 - e.1.2 * mp - Int.fdiv e.2.1.2 2) ∧
    (mp = 800 →
      ∀ e0 ∈ out.pastes, e0.1 = (0, 0) → e0.2.1 = (400, 300) →
        (e0.2.2.1 + 200 = Int.fdiv out.canvasWidth 2 ∧
         e0.2.2.2 + 150 = Int.fdiv out.canvasHeight 2) ∧
        ∀ e1 ∈ out.pastes, e1.1 = (1, 0) → e1.2.1 = (400, 300) →
          e1.2.2.1 = e0.2.2.1 - 800 ∧ e1.2.2.2 = e0.2.2.2) := by
  obtain ⟨tiles, hc, hne, rfl⟩ := assembled_inv h
  constructor
  · intro e he
    simp only [List.mem_map] at he
    obtain ⟨t, ht, rfl⟩ := he
    exact ⟨rfl, rfl⟩
  · rintro rfl e0 he0 h00 hs0
    simp only [List.mem_map] at he0
    obtain ⟨t0, ht0, rfl⟩ := he0
    have h00x : t0.2.1 = 0 := congrArg Prod.fst h00
    have h00y : t0.2.2 = 0 := congrArg Prod.snd h00
    have f4 : Int.fdiv 400 2 = 200 := by decide
    have f3 : Int.fdiv 300 2 = 150 := by decide
    have hs0' : imageSize t0.1 = (400, 300) := hs0
    constructor
    · dsimp only
      rw [hs0']
      dsimp only
      rw [h00x, h00y, f4, f3]
      constructor <;> ring
    · intro e1 he1 h11 hs1
      simp only [List.mem_map] at he1
      obtain ⟨t1, ht1, rfl⟩ := he1
      have h11x : t1.2.1 = 1 := congrArg Prod.fst h11
      have h11y : t1.2.2 = 0 := congrArg Prod.snd h11
      have hs1' : imageSize t1.1 = (400, 300) := hs1
      dsimp only
      rw [hs0', hs1']
      dsimp only
      rw [h00x, h00y, h11x, h11y, f4, f3]
      constructor <;> ring

/-- C1, witness: a run with uniform 400×300 tiles at `(0,0)` and `(1,0)`,
pan distance 800, one ring. -/
theorem assembler_offset_formula_witness :
    (assemble_image_details ["screenshot_0_0.png", "screenshot_1_0.png"] 800
        (400, 300) 1 (fun _ => (400, 300)) =
      AssembleResult.assembled
        ⟨8000, 7900, [((0, 0), (400, 300), (3800, 3800)),
                      ((1, 0), (400, 300), (3000, 3800))]⟩) ∧
    ((∀ e ∈ ([((0, 0), (400, 300), (3800, 3800)),
              ((1, 0), (400, 300), (3000, 3800))] :
          List (Pos × (Int × Int) × (Int × Int))),
        e.2.2.1 = Int.fdiv 8000 2 - e.1.1 * 800 - Int.fdiv e.2.1.1 2 ∧
        e.2.2.2 = Int.fdiv 7900 2 - e.1.2 * 800 - Int.fdiv e.2.1.2 2) ∧
     ((800 : Int) = 800 →
       ∀ e0 ∈ ([((0, 0), (400, 300), (3800, 3800)),
                ((1, 0), (400, 300), (3000, 3800))] :
           List (Pos × (Int × Int) × (Int × Int))),
         e0.1 = (0, 0) → e0.2.1 = (400, 300) →
         (e0.2.2.1 + 200 = Int.fdiv 8000 2 ∧
          e0.2.2.2 + 150 = Int.fdiv 7900 2) ∧
         ∀ e1 ∈ ([((0, 0), (400, 300), (3800, 3800)),
                  ((1, 0), (400, 300), (3000, 3800))] :
             List (Pos × (Int × Int) × (Int × Int))),
           e1.1 = (1, 0) → e1.2.1 = (400, 300) →
           e1.2.2.1 = e0.2.2.1 - 800 ∧ e1.2.2.2 = e0.2.2.2)) :=
  ⟨by decide,
   @assembler_offset_formula ["screenshot_0_0.png", "screenshot_1_0.png"] 800
     (400, 300) 1 (fun _ => (400, 300))
     ⟨8000, 7900, [((0, 0), (400, 300), (3800, 3800)),
                   ((1, 0), (400, 300), (3000, 3800))]⟩ (by decide)⟩

/-- C5.  A successful osm20 run allocates a canvas of `tileW + 2·p·N + 6000`
by `tileH + 2·p·N + 6000`, and every pasted tile of the uniform size whose
grid coordinates lie in `[-N, N]²` lands entirely inside
`[0, canvasW) × [0, canvasH)`. -/
theorem assembler_canvas_in_bounds {files : List String} {mp : Int}
    {sz : Int × Int} {steps : Int} {imageSize : String → Int × Int}
    {out : AssembledOutput}
    (h : assemble_image_details files mp sz steps imageSize =
      AssembleResult.assembled out)
    (hmp : 0 < mp) (hN : 1 ≤ steps) (hw : 0 ≤ sz.1) (hh : 0 ≤ sz.2) :
    out.canvasWidth = sz.1 + mp * steps * 2 + 6000 ∧
    out.canvasHeight = sz.2 + mp * steps * 2 + 6000 ∧
    ∀ e ∈ out.pastes, e.2.1 = sz →
      -steps ≤ e.1.1 → e.1.1 ≤ steps → -steps ≤ e.1.2 → e.1.2 ≤ steps →
      0 ≤ e.2.2.1 ∧ e.2.2.1 + sz.1 ≤ out.canvasWidth ∧
      0 ≤ e.2.2.2 ∧ e.2.2.2 + sz.2 ≤ out.canvasHeight := by
  obtain ⟨tiles, hc, hne, rfl⟩ := assembled_inv h
  refine ⟨rfl, rfl, ?_⟩
  intro e he hsz hx1 hx2 hy1 hy2
  simp only [List.mem_map] at he
  obtain ⟨t, ht, rfl⟩ := he
  have hsz' : imageSize t.1 = sz := hsz
  have hbx := offset_in_bounds mp steps sz.1 t.2.1 hmp hN hw hx1 hx2
  have hby := offset_in_bounds mp steps sz.2 t.2.2 hmp hN hh hy1 hy2
  dsimp only
  rw [hsz']
  exact ⟨hbx.1, hbx.2, hby.1, hby.2⟩

/-- C5, witness: one 400×300 tile at the origin, pan distance 800, one
ring. -/
theorem assembler_canvas_in_bounds_witness :
    (assemble_image_details ["screenshot_0_0.png"] 800 (400, 300) 1
        (fun _ => (400, 300)) =
      AssembleResult.assembled ⟨8000, 7900, [((0, 0), (400, 300), (3800, 3800))]⟩) ∧
    (0 : Int) < 800 ∧ (1 : Int) ≤ 1 ∧ (0 : Int) ≤ 400 ∧ (0 : Int) ≤ 300 ∧
    ((8000 : Int) = 400 + 800 * 1 * 2 + 6000 ∧
     (7900 : Int) = 300 + 800 * 1 * 2 + 6000 ∧
     ∀ e ∈ ([((0, 0), (400, 300), (3800, 3800))] :
         List (Pos × (Int × Int) × (Int × Int))),
       e.2.1 = ((400 : Int), (300 : Int)) →
       -(1 : Int) ≤ e.1.1 → e.1.1 ≤ 1 → -(1 : Int) ≤ e.1.2 → e.1.2 ≤ 1 →
       0 ≤ e.2.2.1 ∧ e.2.2.1 + 400 ≤ 8000 ∧
       0 ≤ e.2.2.2 ∧ e.2.2.2 + 300 ≤ 7900) :=
  ⟨by decide, by decide, by decide, by decide, by decide,
   @assembler_canvas_in_bounds ["screenshot_0_0.png"] 800 (400, 300) 1
     (fun _ => (400, 300)) ⟨8000, 7900, [((0, 0), (400, 300), (3800, 3800))]⟩
     (by decide) (by decide) (by decide) (by decide) (by decide)⟩

/-- C6.  When the collection loop completes with zero valid tiles, the
assembler reports the nothing-to-assemble condition and returns before
allocating a canvas or writing any output. -/
theorem assembler_empty_input (files : List String) (mp : Int) (sz : Int × Int)
    (steps : Int) (imageSize : String → Int × Int)
    (h : collectPositions 1 2 files = Except.ok []) :
    assemble_image_details files mp sz steps imageSize =
      AssembleResult.nothingToAssemble ∧
    (assemble_image_details files mp sz steps imageSize).writesOutput = false := by
  have hmain : assemble_image_details files mp sz steps imageSize =
      AssembleResult.nothingToAssemble := by
    unfold assemble_image_details
    rw [h]
    rfl
  exact ⟨hmain, by rw [hmain]; rfl⟩

/-- C6, witness: a directory with a non-`.png` file and a `.png` file whose
coordinate fields are not integers. -/
theorem assembler_empty_input_witness :
    collectPositions 1 2 ["notes.txt", "screenshot_a_b.png"] = Except.ok [] ∧
    (assemble_image_details ["notes.txt", "screenshot_a_b.png"] 800 (400, 300) 1
        (fun _ => (400, 300)) = AssembleResult.nothingToAssemble ∧
     (assemble_image_details ["notes.txt", "screenshot_a_b.png"] 800 (400, 300) 1
        (fun _ => (400, 300))).writesOutput = false) :=
  ⟨rfl, assembler_empty_input ["notes.txt", "screenshot_a_b.png"] 800 (400, 300)
    1 (fun _ => (400, 300)) rfl⟩

/-- C7, code bug.  A `.png` filename with fewer than three `_`-separated
fields (`"map.png"`) raises `IndexError` at `parts[1]`, which the
`except ValueError` handler does not catch: the whole assembly aborts even
though a valid tile is present.  A filename whose fields merely fail `int()`
(`"zz_bad_name.png"`) is skipped with a warning and assembly continues, as
the claim describes. -/
theorem assembler_parse_crash :
    assemble_image_details ["map.png", "screenshot_1_0.png"] 800 (400, 300) 1
        (fun _ => (400, 300)) = AssembleResult.crashed ∧
    assemble_image_details ["screenshot_1_0.png", "zz_bad_name.png"] 800
        (400, 300) 1 (fun _ => (400, 300)) =
      AssembleResult.assembled
        ⟨8000, 7900, [((1, 0), (400, 300), (3000, 3800))]⟩ := by
  constructor <;> decide

end PrintableMap
